import Mathlib

/-!
Verification of the index-building pipeline of the app-directory repository
(scripts/build-index.cjs) against its natural-language specification.

The script is embedded shallowly:

* JSON values are the inductive type JValue; a parsed JSON object is an
  association list of fields (RawObj), preserving insertion order, which is
  how JavaScript objects behave for the string keys that occur here.
* The loader (loadAllApps) and the GitHub metadata fetcher
  (fetchGitHubMetadata) are modelled on raw objects; the network call is a
  parameter (an oracle from the request URL to an optional parsed response),
  since every transport-level failure, non-2xx status and body-parse failure
  collapses to the same null result in the source.
* The two index builders (buildProjectIndex, the master part of buildIndexes)
  are modelled on a typed view App of an app record: the fields the builders
  actually read (id, name, category, featured) plus an opaque list of
  passthrough fields.
* The filesystem effects of buildIndexes are modelled by an environment Env
  describing which files exist, which parse, and which writes fail; the
  try/catch structure of the source is mirrored by Except and by the places
  where an error is swallowed (the per-project loop) versus propagated
  (the master phase and the top level).
-/

/-- A JSON value, as produced by JSON.parse. Objects keep field order. -/
inductive JValue where
  | null
  | bool (b : Bool)
  | num (n : Int)
  | str (s : String)
  | arr (elems : List JValue)
  | obj (fields : List (String × JValue))

/-- The fields of a parsed JSON object, in insertion order. -/
abbrev RawObj : Type := List (String × JValue)

/-- JavaScript truthiness of a value (used by the if-guards in the source). -/
def truthy : JValue → Bool
  | JValue.null => false
  | JValue.bool b => b
  | JValue.num n => n != 0
  | JValue.str s => s != ""
  | JValue.arr _ => true
  | JValue.obj _ => true

/-- Property lookup on an object: the value stored under key k, if any. -/
def getField (fs : RawObj) (k : String) : Option JValue :=
  (fs.find? (fun p => p.1 == k)).map (fun p => p.2)

/-- Whether an object has a property named k. -/
def hasField (fs : RawObj) (k : String) : Bool :=
  fs.any (fun p => p.1 == k)

/-- JavaScript object-literal update semantics, as in a spread followed by one
extra property: if the key is already present its value is replaced in place
(property order is first-insertion order); otherwise the property is appended. -/
def setField (fs : RawObj) (k : String) (v : JValue) : RawObj :=
  if fs.any (fun p => p.1 == k) then
    fs.map (fun p => if p.1 == k then (k, v) else p)
  else fs ++ [(k, v)]

/-- JavaScript string coercion of a value, as applied by new URL(x) to a
non-string argument. Only the string case matters to the claims. -/
def jsToString : JValue → String
  | JValue.null => "null"
  | JValue.bool b => cond b "true" "false"
  | JValue.num n => toString n
  | JValue.str s => s
  | JValue.arr _ => ""
  | JValue.obj _ => "[object Object]"

/-- Lowercasing of a string, character by character (ASCII letters). -/
def toLowerCase (s : String) : String :=
  String.mk (s.data.map Char.toLower)

/-- Scan for the first "://" separator and return the characters after it. -/
def afterSchemeSep : List Char → Option (List Char)
  | ':' :: '/' :: '/' :: rest => some rest
  | _ :: cs => afterSchemeSep cs
  | [] => none

/-- Suffix of a character list after its last '@' (the whole list if none). -/
def afterLastAt (l : List Char) : List Char :=
  (l.reverse.takeWhile (fun c => c != '@')).reverse

/-- Modelled from the spec: the WHATWG URL parser of node:url is an external
dependency, not part of this repository; the spec only requires that the URL
is "parsed structurally". This model returns the hostname of a URL string:
a non-empty scheme must be followed by "://"; the authority extends to the
first '/', '?' or '#'; userinfo up to the last '@' and a ':'-separated port
are dropped; the hostname is lowercased. An unparsable URL yields none
(new URL throws, which the source catches). -/
def parseURLHostname (s : String) : Option String :=
  match s.data with
  | [] => none
  | ':' :: _ => none
  | _ :: _ =>
    match afterSchemeSep s.data with
    | none => none
    | some rest =>
      let auth := rest.takeWhile (fun c => !(c == '/' || c == '?' || c == '#'))
      let hostPort := afterLastAt auth
      let host := hostPort.takeWhile (fun c => c != ':')
      if host.isEmpty then none else some (toLowerCase (String.mk host))

/-- Attempt of the pattern github.com/([^/]+)/([^/]+) at the head of the
character list: both capture groups must be non-empty. -/
def matchOwnerRepo (l : List Char) : Option (String × String) :=
  match l with
  | 'g' :: 'i' :: 't' :: 'h' :: 'u' :: 'b' :: '.' :: 'c' :: 'o' :: 'm' :: '/' :: rest =>
    let owner := rest.takeWhile (fun c => c != '/')
    if owner.isEmpty then none
    else
      match rest.drop owner.length with
      | '/' :: rest2 =>
        let repo := rest2.takeWhile (fun c => c != '/')
        if repo.isEmpty then none else some (String.mk owner, String.mk repo)
      | _ => none
  | _ => none

/-- Unanchored regex search: try the pattern at every position, as
RegExp.exec does for the expression github.com\/([^/]+)\/([^/]+). -/
def searchOwnerRepo : List Char → Option (String × String)
  | [] => none
  | c :: cs =>
    match matchOwnerRepo (c :: cs) with
    | some r => some r
    | none => searchOwnerRepo cs

/-- Owner and repository captured from the URL by the source's regex. -/
def extractOwnerRepo (s : String) : Option (String × String) :=
  searchOwnerRepo s.data

/-- The repo.replace of the source: strip one trailing ".git" suffix. -/
def stripGitSuffix (repo : String) : String :=
  if repo.data.length ≥ 4 ∧ repo.data.drop (repo.data.length - 4) = ['.', 'g', 'i', 't'] then
    String.mk (repo.data.take (repo.data.length - 4))
  else repo

/-- The fields of the GitHub API response that the source reads. The whole
fetch-and-parse step is a single oracle in the model because every failure
mode (thrown fetch, non-ok status, malformed body) yields null in the source. -/
structure ApiRepo where
  stargazers_count : Int
  open_issues_count : Int
  forks_count : Int
  updated_at : String
  license_spdx_id : Option String

/-- The narrow projection returned by fetchGitHubMetadata. -/
structure GitHubMeta where
  stars : Int
  openIssues : Int
  forks : Int
  lastUpdated : String
  license : Option String

/-- The metadata record as merged into the app object by the loader. -/
def metaToJValue (m : GitHubMeta) : JValue :=
  JValue.obj
    [("stars", JValue.num m.stars),
     ("openIssues", JValue.num m.openIssues),
     ("forks", JValue.num m.forks),
     ("lastUpdated", JValue.str m.lastUpdated),
     ("license", match m.license with
       | some s => if s == "" then JValue.null else JValue.str s
       | none => JValue.null)]

/-- Embedding of fetchGitHubMetadata (scripts/build-index.cjs): reject a falsy
URL, parse the URL structurally and require the hostname to be exactly
github.com, extract owner/repo with the regex, build the API URL and consult
the oracle; any oracle failure is null. The license short-code goes through
the source's "|| null", which also maps an empty string to null. -/
def fetchGitHubMetadata (oracle : String → Option ApiRepo) (repoUrl : String) :
    Option GitHubMeta :=
  if repoUrl == "" then none
  else
    match parseURLHostname repoUrl with
    | none => none
    | some host =>
      if host != "github.com" then none
      else
        match extractOwnerRepo repoUrl with
        | none => none
        | some (owner, repo) =>
          let apiUrl := "https://api.github.com/repos/" ++ owner ++ "/" ++ stripGitSuffix repo
          match oracle apiUrl with
          | none => none
          | some data =>
            some { stars := data.stargazers_count,
                   openIssues := data.open_issues_count,
                   forks := data.forks_count,
                   lastUpdated := data.updated_at,
                   license := match data.license_spdx_id with
                     | some s => if s == "" then none else some s
                     | none => none }

/-- The app.links?.github access of the loader. -/
def linksGithub (app : RawObj) : Option JValue :=
  match getField app "links" with
  | some (JValue.obj l) => getField l "github"
  | _ => none

/-- The enrichment result computed for one app by the loader: the fetch is
attempted only when links.github is present and truthy. -/
def githubMetadataOf (oracle : String → Option ApiRepo) (app : RawObj) :
    Option GitHubMeta :=
  match linksGithub app with
  | some v => if truthy v then fetchGitHubMetadata oracle (jsToString v) else none
  | none => none

/-- The index entry built for one parsed app file: spread all fields of the
app, then add a github property only when metadata was obtained. -/
def loadAppEntry (oracle : String → Option ApiRepo) (app : RawObj) : RawObj :=
  match githubMetadataOf oracle app with
  | some m => setField app "github" (metaToJValue m)
  | none => app

/-- Embedding of loadAllApps: each discovered file either parses to an object
(some app) or fails to parse (none); a failed file is logged and skipped, a
parsed one contributes its index entry. -/
def loadAllApps (oracle : String → Option ApiRepo)
    (files : List (Option RawObj)) : List RawObj :=
  files.filterMap (fun f => f.map (loadAppEntry oracle))

/-- Typed view of an app record as consumed by the index builders: the fields
the builders read (id, name, category, featured — the last as its JavaScript
truthiness, absent meaning false), plus the remaining passthrough fields. -/
structure App where
  id : String
  name : String
  category : String
  featured : Bool
  extra : List (String × JValue) := []

/-- Modelled from the spec: String.prototype.localeCompare is an external
ICU collation; the spec describes the resulting order as case-insensitive
lexicographic order of the name. The model compares lowercased strings
lexicographically and breaks ties by the raw strings, returning the sign
expected of a comparator. -/
def localeCompare (a b : String) : Int :=
  if toLowerCase a < toLowerCase b then -1
  else if toLowerCase b < toLowerCase a then 1
  else if a < b then -1
  else if b < a then 1
  else 0

/-- The comparator passed to toSorted by both builders: featured apps first,
then names in localeCompare order. -/
def appCmp (a b : App) : Int :=
  if a.featured && !b.featured then -1
  else if !a.featured && b.featured then 1
  else localeCompare a.name b.name

/-- The non-strict order induced by the comparator. -/
def appLe (a b : App) : Prop := appCmp a b ≤ 0

instance : DecidableRel appLe := fun a b => Int.decLe (appCmp a b) 0

/-- The toSorted call of the source: a stable sort by the comparator. -/
def sortApps (l : List App) : List App := l.insertionSort appLe

/-- Project configuration (projects/<dir>/project.json); a filter list is
none when the property is absent. -/
structure ProjectConfig where
  id : String
  name : String
  description : Option String := none
  include_only : Option (List String) := none
  exclude_apps : Option (List String) := none
  featured_categories : Option (List String) := none

/-- One category definition from a categories.json file. -/
structure CategoryDef where
  id : String
  name : String
  extra : List (String × JValue) := []

/-- The parsed shape of a categories.json file. -/
structure CategoriesData where
  categories : List CategoryDef

/-- A category of a project index: namespaced id, the retained original id,
and the computed count. -/
structure NamespacedCategory where
  id : String
  originalId : String
  name : String
  count : Nat
  extra : List (String × JValue) := []

/-- The project sub-record of a project index. -/
structure ProjectMeta where
  id : String
  name : String
  description : String

/-- The project index artifact. -/
structure ProjectIndex where
  version : String
  project : ProjectMeta
  updated : String
  apps : List App
  categories : List NamespacedCategory

/-- Step 1 of the filter pipeline: keep only listed ids, when the list is
present and non-empty. -/
def applyIncludeOnly (cfg : ProjectConfig) (apps : List App) : List App :=
  match cfg.include_only with
  | some l => if l.length > 0 then apps.filter (fun a => l.contains a.id) else apps
  | none => apps

/-- Step 2 of the filter pipeline: drop listed ids, when the list is present
and non-empty. -/
def applyExcludeApps (cfg : ProjectConfig) (apps : List App) : List App :=
  match cfg.exclude_apps with
  | some l => if l.length > 0 then apps.filter (fun a => !(l.contains a.id)) else apps
  | none => apps

/-- Step 3 of the filter pipeline: keep only apps of listed categories, when
the list is present and non-empty. -/
def applyFeaturedCategories (cfg : ProjectConfig) (apps : List App) : List App :=
  match cfg.featured_categories with
  | some l => if l.length > 0 then apps.filter (fun a => l.contains a.category) else apps
  | none => apps

/-- The full filter pipeline of buildProjectIndex, in source order. -/
def filteredApps (cfg : ProjectConfig) (apps : List App) : List App :=
  applyFeaturedCategories cfg (applyExcludeApps cfg (applyIncludeOnly cfg apps))

/-- Apps of the given (original) category, as counted by the categoryCounts
dictionaries of the source. -/
def countApps (apps : List App) (c : String) : Nat :=
  (apps.filter (fun a => a.category == c)).length

/-- The categories of a project index: each definition is namespaced with the
project id, keeps its original id and receives the count computed on the
filtered apps. -/
def namespaceCategories (projectId : String) (cats : List CategoryDef)
    (projectApps : List App) : List NamespacedCategory :=
  cats.map (fun cat =>
    { id := projectId ++ ":" ++ cat.id,
      originalId := cat.id,
      name := cat.name,
      count := countApps projectApps cat.id,
      extra := cat.extra })

/-- The PROJECT_INDEX_VERSION constant of the source. -/
def PROJECT_INDEX_VERSION : String := "0.1.0"

/-- The MASTER_INDEX_VERSION constant of the source. -/
def MASTER_INDEX_VERSION : String := "0.1.0"

/-- Embedding of buildProjectIndex. Its categories file is modelled as the
caller sees it: none when the file does not exist (the source logs and
returns null), some none when it exists but JSON.parse throws (the exception
escapes buildProjectIndex, modelled as Except.error), and some (some data)
when it parses. The clock is the now argument. -/
def buildProjectIndex (projectId : String) (cfg : ProjectConfig)
    (allApps : List App) (catsFile : Option (Option CategoriesData))
    (now : String) : Except Unit (Option ProjectIndex) :=
  let projectApps := filteredApps cfg allApps
  match catsFile with
  | none => Except.ok none
  | some none => Except.error ()
  | some (some categoriesData) =>
    let categories := namespaceCategories projectId categoriesData.categories projectApps
    let apps2 := projectApps.map (fun a => { a with category := projectId ++ ":" ++ a.category })
    Except.ok (some
      { version := PROJECT_INDEX_VERSION,
        project := { id := cfg.id, name := cfg.name, description := cfg.description.getD "" },
        updated := now,
        apps := sortApps apps2,
        categories := categories })

/-- A category of the master index: namespaced id, original id, the owning
project and the count over the full app set. -/
structure MasterCategory where
  id : String
  originalId : String
  name : String
  project : String
  count : Nat
  extra : List (String × JValue) := []

/-- The master index artifact. -/
structure MasterIndex where
  version : String
  updated : String
  apps : List App
  categories : List MasterCategory

/-- One project directory as the two globs of buildIndexes see it: for each
of project.json and categories.json, none means the file is absent, some none
that it exists but is not parseable, some (some x) that it parses to x. -/
structure ProjectDir where
  dirName : String
  projectJson : Option (Option ProjectConfig)
  categoriesJson : Option (Option CategoriesData)

/-- The effect environment of one run of buildIndexes: the state of the dist
directory, whether creating it would fail, the discovered project
directories, the output paths whose write would fail, and the clock. -/
structure Env where
  distExists : Bool
  mkdirFails : Bool
  dirs : List ProjectDir
  writeFails : List String
  now : String

/-- A project index file successfully written by the per-project loop,
keyed by the directory name that also names the output file. -/
structure ProjectWrite where
  dirName : String
  index : ProjectIndex

/-- The failure classes that escape buildIndexes: a failed mkdir of dist, a
categories file that fails to parse during the master collection phase, and a
failed write of the master index file. (All three reject the promise; the
per-project loop catches its own errors.) -/
inductive BuildErr where
  | mkdirFailed
  | masterCatParse
  | masterWriteFailed

/-- The outputs of a successful run: the project index files written and the
master index. -/
structure BuildOutput where
  projectWrites : List ProjectWrite
  master : MasterIndex

/-- The per-project loop body of buildIndexes, including its try/catch: a
missing project.json is not discovered by the glob, a malformed one throws
JSON.parse inside the try, a throwing buildProjectIndex (malformed categories
file) is caught, a null index is not written, and a failing write throws
inside the same try. In all those cases the error is logged and the loop
continues, producing no write for this directory. -/
def projectStep (env : Env) (allApps : List App) (d : ProjectDir) :
    Option ProjectWrite :=
  match d.projectJson with
  | none => none
  | some none => none
  | some (some cfg) =>
    match buildProjectIndex d.dirName cfg allApps d.categoriesJson env.now with
    | Except.error _ => none
    | Except.ok none => none
    | Except.ok (some idx) =>
      if env.writeFails.contains ("dist/" ++ d.dirName ++ ".json") then none
      else some { dirName := d.dirName, index := idx }

/-- The thin record a categories.json entry contributes to categoryData in
the master phase, before counts are attached. -/
def mkMasterCat (projectId : String) (cat : CategoryDef) : MasterCategory :=
  { id := projectId ++ ":" ++ cat.id,
    originalId := cat.id,
    name := cat.name,
    project := projectId,
    count := 0,
    extra := cat.extra }

/-- One categories file folded into the accumulated categoryData: first-seen
namespaced id wins, later duplicates are discarded, insertion order is kept
(Object.values later enumerates in insertion order). -/
def addCats (projectId : String) (cats : List CategoryDef)
    (acc : List MasterCategory) : List MasterCategory :=
  cats.foldl (fun acc2 cat =>
    if acc2.any (fun c => c.id == projectId ++ ":" ++ cat.id) then acc2
    else acc2 ++ [mkMasterCat projectId cat]) acc

/-- The master collection loop of buildIndexes: every existing categories.json
is read and parsed with no try/catch, so the first malformed one throws out
of buildIndexes. -/
def collectMasterCats : List ProjectDir → List MasterCategory →
    Except BuildErr (List MasterCategory)
  | [], acc => Except.ok acc
  | d :: ds, acc =>
    match d.categoriesJson with
    | none => collectMasterCats ds acc
    | some none => Except.error BuildErr.masterCatParse
    | some (some data) => collectMasterCats ds (addCats d.dirName data.categories acc)

/-- Embedding of buildIndexes, from the app list produced by loadAllApps: an
unwritable dist directory throws at once; the per-project loop swallows its
errors; the master phase attaches to each collected category the count over
the full, unfiltered app set keyed by original category id, sorts all apps
with the same comparator, and writes dist/index.json, whose write failure
throws. -/
def buildIndexes (env : Env) (allApps : List App) :
    Except BuildErr BuildOutput :=
  if !env.distExists && env.mkdirFails then Except.error BuildErr.mkdirFailed
  else
    let writes := env.dirs.filterMap (projectStep env allApps)
    match collectMasterCats env.dirs [] with
    | Except.error e => Except.error e
    | Except.ok rawCats =>
      let masterCategories := rawCats.map (fun c =>
        { c with count := countApps allApps c.originalId })
      let master : MasterIndex :=
        { version := MASTER_INDEX_VERSION,
          updated := env.now,
          apps := sortApps allApps,
          categories := masterCategories }
      if env.writeFails.contains "dist/index.json" then
        Except.error BuildErr.masterWriteFailed
      else Except.ok { projectWrites := writes, master := master }

/-- The completion status of the whole script: buildIndexes().catch(console.error)
handles any rejection by logging it, so the process always completes with
status 0, whichever way buildIndexes ends. -/
def mainExitCode (env : Env) (allApps : List App) : Nat :=
  match buildIndexes env allApps with
  | Except.ok _ => 0
  | Except.error _ => 0

/-- Extract the project index of a successful, non-null buildProjectIndex
result (a placeholder otherwise); used to state concrete evaluations. -/
def okIndex (r : Except Unit (Option ProjectIndex)) : ProjectIndex :=
  match r with
  | Except.ok (some idx) => idx
  | _ => { version := "", project := { id := "", name := "", description := "" },
           updated := "", apps := [], categories := [] }

/-- Extract the output of a successful buildIndexes run (a placeholder
otherwise); used to state concrete evaluations. -/
def okOutput (r : Except BuildErr BuildOutput) : BuildOutput :=
  match r with
  | Except.ok out => out
  | Except.error _ =>
    { projectWrites := [], master := { version := "", updated := "", apps := [], categories := [] } }

/-- An oracle standing for a network on which every fetch fails. -/
def oracleNone : String → Option ApiRepo := fun _ => none

/-- A sample successful GitHub API response. -/
def apiRepoW : ApiRepo :=
  { stargazers_count := 10, open_issues_count := 2, forks_count := 3,
    updated_at := "2025-01-01T00:00:00Z", license_spdx_id := some "MIT" }

/-- An oracle standing for a network that answers every request. -/
def oracleSome : String → Option ApiRepo := fun _ => some apiRepoW

/-- Sample app: featured, named Zeta, category client. -/
def appZeta : App := { id := "zeta", name := "Zeta", category := "client", featured := true }

/-- Sample app: not featured, named Alpha, category tool. -/
def appAlpha : App := { id := "alpha", name := "Alpha", category := "tool", featured := false }

/-- Sample app whose category has no definition in any categories file. -/
def appX : App := { id := "x-app", name := "Xapp", category := "undefinedcat", featured := false }

/-- The sample app set. -/
def appsW : List App := [appZeta, appAlpha]

/-- Sample category definition with id client. -/
def catClient : CategoryDef := { id := "client", name := "Clients" }

/-- Sample category definition with id tool. -/
def catTool : CategoryDef := { id := "tool", name := "Tools" }

/-- Sample categories file defining client and tool. -/
def catsAll : CategoriesData := { categories := [catClient, catTool] }

/-- Sample project configuration with no filters. -/
def cfgPlain : ProjectConfig := { id := "alpha-project", name := "Alpha Project" }

/-- Sample project configuration whose id differs from its directory name. -/
def cfgMismatch : ProjectConfig := { id := "renamed", name := "Renamed" }

/-- A healthy project directory alpha. -/
def dirGood : ProjectDir :=
  { dirName := "alpha", projectJson := some (some cfgPlain), categoriesJson := some (some catsAll) }

/-- A project directory beta whose categories.json exists but does not parse. -/
def dirBadCats : ProjectDir :=
  { dirName := "beta", projectJson := some (some cfgPlain), categoriesJson := some none }

/-- A project directory whose config id (renamed) differs from its directory
name (alphadir). -/
def dirMismatch : ProjectDir :=
  { dirName := "alphadir", projectJson := some (some cfgMismatch), categoriesJson := some (some catsAll) }

/-- A healthy environment with the single project alpha. -/
def envGood : Env :=
  { distExists := true, mkdirFails := false, dirs := [dirGood], writeFails := [], now := "T" }

/-- An environment with a healthy alpha and a beta whose categories file is
malformed. -/
def envBadCats : Env :=
  { distExists := true, mkdirFails := false, dirs := [dirGood, dirBadCats], writeFails := [], now := "T" }

/-- An environment in which dist is missing and mkdir fails. -/
def envMkdirFail : Env :=
  { distExists := false, mkdirFails := true, dirs := [], writeFails := [], now := "T" }

/-- An environment in which writing the project index of alpha fails. -/
def envProjWriteFail : Env :=
  { distExists := true, mkdirFails := false, dirs := [dirGood], writeFails := ["dist/alpha.json"], now := "T" }

/-- An environment in which writing the master index fails. -/
def envMasterWriteFail : Env :=
  { distExists := true, mkdirFails := false, dirs := [dirGood], writeFails := ["dist/index.json"], now := "T" }

/-- An environment with the mismatched project directory. -/
def envMismatch : Env :=
  { distExists := true, mkdirFails := false, dirs := [dirMismatch], writeFails := [], now := "T" }

/-- The spec's attacker-controlled URL that merely contains the trusted host. -/
def urlEvil : String := "https://evil.com/github.com/foo/bar"

/-- A genuine GitHub repository URL. -/
def urlGood : String := "https://github.com/LizardByte/Sunshine"

/-- A raw app whose links.github is the attacker-controlled URL. -/
def appEvil : RawObj :=
  [("id", JValue.str "demo"), ("links", JValue.obj [("github", JValue.str urlEvil)])]

/-- A raw app with a genuine GitHub link. -/
def appLinked : RawObj :=
  [("id", JValue.str "sunshine"), ("links", JValue.obj [("github", JValue.str urlGood)])]

/-- A raw app that already carries a github field and has no links. -/
def appStale : RawObj :=
  [("id", JValue.str "demo"), ("github", JValue.str "stale")]

/-- A parseable app file for the loader. -/
def fileGood : Option RawObj := some [("id", JValue.str "demo")]

/-- The master category for client as computed over the sample data. -/
def masterCatClientW : MasterCategory :=
  { id := "alpha:client", originalId := "client", name := "Clients", project := "alpha", count := 1 }

/-- The master category for tool as computed over the sample data. -/
def masterCatToolW : MasterCategory :=
  { id := "alpha:tool", originalId := "tool", name := "Tools", project := "alpha", count := 1 }

/-- The project-index category for client as computed over the sample data. -/
def nsCatClientW : NamespacedCategory :=
  { id := "alpha:client", originalId := "client", name := "Clients", count := 1 }

/-- The project-index category for tool as computed over the sample data. -/
def nsCatToolW : NamespacedCategory :=
  { id := "alpha:tool", originalId := "tool", name := "Tools", count := 1 }

/-- The adjacent-pair ordering property the spec asserts of every output app
sequence: featured (true before false) as first key, case-insensitive
lexicographic name as second. -/
def sortedOutput (l : List App) : Prop :=
  l.Chain' (fun a b => b.featured ≤ a.featured ∧
    (a.featured = b.featured → toLowerCase a.name ≤ toLowerCase b.name))

theorem localeCompare_le_iff {a b : String} :
    localeCompare a b ≤ 0 ↔
      (toLowerCase a < toLowerCase b ∨ (toLowerCase a = toLowerCase b ∧ a ≤ b)) := by
  unfold localeCompare
  split_ifs with h1 h2 h3 h4
  · exact iff_of_true (by norm_num) (Or.inl h1)
  · refine iff_of_false (by norm_num) ?_
    rintro (h | ⟨he, _⟩)
    · exact h1 h
    · exact absurd h2 (by rw [he]; exact lt_irrefl _)
  · have he : toLowerCase a = toLowerCase b := le_antisymm (not_lt.mp h2) (not_lt.mp h1)
    exact iff_of_true (by norm_num) (Or.inr ⟨he, le_of_lt h3⟩)
  · refine iff_of_false (by norm_num) ?_
    rintro (h | ⟨_, hle⟩)
    · exact h1 h
    · exact absurd hle (not_le.mpr h4)
  · have he : toLowerCase a = toLowerCase b := le_antisymm (not_lt.mp h2) (not_lt.mp h1)
    exact iff_of_true le_rfl (Or.inr ⟨he, not_lt.mp h4⟩)

theorem localeCompare_le_total (a b : String) :
    localeCompare a b ≤ 0 ∨ localeCompare b a ≤ 0 := by
  rw [localeCompare_le_iff, localeCompare_le_iff]
  rcases lt_trichotomy (toLowerCase a) (toLowerCase b) with h | h | h
  · exact Or.inl (Or.inl h)
  · rcases le_total a b with hab | hab
    · exact Or.inl (Or.inr ⟨h, hab⟩)
    · exact Or.inr (Or.inr ⟨h.symm, hab⟩)
  · exact Or.inr (Or.inl h)

theorem localeCompare_le_trans {a b c : String}
    (h1 : localeCompare a b ≤ 0) (h2 : localeCompare b c ≤ 0) :
    localeCompare a c ≤ 0 := by
  rw [localeCompare_le_iff] at h1 h2 ⊢
  rcases h1 with h1 | ⟨e1, l1⟩
  · rcases h2 with h2 | ⟨e2, _⟩
    · exact Or.inl (h1.trans h2)
    · exact Or.inl (by rw [← e2]; exact h1)
  · rcases h2 with h2 | ⟨e2, l2⟩
    · exact Or.inl (by rw [e1]; exact h2)
    · exact Or.inr ⟨e1.trans e2, l1.trans l2⟩

theorem appLe_iff {a b : App} :
    appLe a b ↔
      ((a.featured = true ∧ b.featured = false) ∨
       (a.featured = b.featured ∧ localeCompare a.name b.name ≤ 0)) := by
  unfold appLe appCmp
  cases ha : a.featured <;> cases hb : b.featured <;> simp [ha, hb]

instance : IsTotal App appLe :=
  ⟨fun a b => by
    rw [appLe_iff, appLe_iff]
    cases ha : a.featured <;> cases hb : b.featured <;> simp [ha, hb] <;>
      exact localeCompare_le_total a.name b.name⟩

instance : IsTrans App appLe :=
  ⟨fun a b c h1 h2 => by
    rw [appLe_iff] at h1 h2 ⊢
    rcases h1 with ⟨ha, hb⟩ | ⟨he, hl⟩ <;> rcases h2 with ⟨hb2, hc⟩ | ⟨he2, hl2⟩
    · rw [hb] at hb2; cases hb2
    · exact Or.inl ⟨ha, by rw [← he2]; exact hb⟩
    · exact Or.inl ⟨by rw [he]; exact hb2, hc⟩
    · exact Or.inr ⟨he.trans he2, localeCompare_le_trans hl hl2⟩⟩

theorem appLe_pair {a b : App} (h : appLe a b) :
    b.featured ≤ a.featured ∧
      (a.featured = b.featured → toLowerCase a.name ≤ toLowerCase b.name) := by
  rw [appLe_iff] at h
  rcases h with ⟨ha, hb⟩ | ⟨he, hl⟩
  · constructor
    · rw [ha, hb]; exact Bool.false_le _
    · intro hab; rw [ha, hb] at hab; cases hab
  · constructor
    · exact le_of_eq he.symm
    · intro _
      rw [localeCompare_le_iff] at hl
      rcases hl with h | ⟨h, _⟩
      · exact le_of_lt h
      · exact le_of_eq h

theorem sortApps_sorted (l : List App) : sortedOutput (sortApps l) := by
  have hs : List.Sorted appLe (sortApps l) := List.sorted_insertionSort appLe l
  exact (hs.imp fun h => appLe_pair h).chain'

theorem mem_sortApps {l : List App} {a : App} : a ∈ sortApps l ↔ a ∈ l :=
  (List.perm_insertionSort appLe l).mem_iff

theorem string_drop_append (p o : String) : (p ++ o).drop p.length = o := by
  apply String.ext
  rw [String.data_drop]
  exact List.drop_left p.data o.data

theorem ns_inj {p q o : String} (h : p ++ ":" ++ o = q ++ ":" ++ o) : p = q := by
  apply String.ext
  have hd : (p.data ++ (":" : String).data) ++ o.data
      = (q.data ++ (":" : String).data) ++ o.data := congrArg String.data h
  exact List.append_cancel_right (List.append_cancel_right hd)

theorem buildProjectIndex_some_eq (pid : String) (cfg : ProjectConfig)
    (apps : List App) (d : CategoriesData) (now : String) :
    buildProjectIndex pid cfg apps (some (some d)) now = Except.ok (some
      { version := PROJECT_INDEX_VERSION,
        project := { id := cfg.id, name := cfg.name, description := cfg.description.getD "" },
        updated := now,
        apps := sortApps ((filteredApps cfg apps).map
          (fun a => { a with category := pid ++ ":" ++ a.category })),
        categories := namespaceCategories pid d.categories (filteredApps cfg apps) }) := rfl

theorem buildProjectIndex_ok {pid : String} {cfg : ProjectConfig} {apps : List App}
    {catsFile : Option (Option CategoriesData)} {now : String} {idx : ProjectIndex}
    (h : buildProjectIndex pid cfg apps catsFile now = Except.ok (some idx)) :
    ∃ d, catsFile = some (some d) ∧
      idx.project = { id := cfg.id, name := cfg.name, description := cfg.description.getD "" } ∧
      idx.apps = sortApps ((filteredApps cfg apps).map
        (fun a => { a with category := pid ++ ":" ++ a.category })) ∧
      idx.categories = namespaceCategories pid d.categories (filteredApps cfg apps) := by
  match catsFile with
  | none => exact absurd h (by simp [buildProjectIndex])
  | some none => exact absurd h (by simp [buildProjectIndex])
  | some (some d) =>
    rw [buildProjectIndex_some_eq] at h
    have he := Option.some.inj (Except.ok.inj h)
    exact ⟨d, rfl, by rw [← he], by rw [← he], by rw [← he]⟩

theorem buildIndexes_ok {env : Env} {apps : List App} {out : BuildOutput}
    (h : buildIndexes env apps = Except.ok out) :
    ∃ rawCats, collectMasterCats env.dirs [] = Except.ok rawCats ∧
      out.projectWrites = env.dirs.filterMap (projectStep env apps) ∧
      out.master = { version := MASTER_INDEX_VERSION, updated := env.now,
                     apps := sortApps apps,
                     categories := rawCats.map (fun c =>
                       { c with count := countApps apps c.originalId }) } := by
  by_cases hm : (!env.distExists && env.mkdirFails) = true
  · simp [buildIndexes, hm] at h
  · cases hc : collectMasterCats env.dirs [] with
    | error e => simp [buildIndexes, hm, hc] at h
    | ok rawCats =>
      by_cases hw : "dist/index.json" ∈ env.writeFails
      · simp [buildIndexes, hm, hc, hw] at h
      · simp [buildIndexes, hm, hc, hw] at h
        exact ⟨rawCats, rfl, by rw [← h], by rw [← h]⟩

theorem addCats_shape (pid : String) :
    ∀ (cats : List CategoryDef) (acc : List MasterCategory),
      (∀ c ∈ acc, c.id = c.project ++ ":" ++ c.originalId) →
      ∀ c ∈ addCats pid cats acc, c.id = c.project ++ ":" ++ c.originalId := by
  intro cats
  induction cats with
  | nil => intro acc hacc; simpa [addCats] using hacc
  | cons cat cats ih =>
    intro acc hacc
    show ∀ c ∈ addCats pid cats
      (if acc.any (fun c2 => c2.id == pid ++ ":" ++ cat.id) then acc
       else acc ++ [mkMasterCat pid cat]), _
    apply ih
    intro c hc
    by_cases hdup : acc.any (fun c2 => c2.id == pid ++ ":" ++ cat.id) = true
    · rw [if_pos hdup] at hc; exact hacc c hc
    · rw [if_neg hdup] at hc
      rcases List.mem_append.mp hc with hold | hnew
      · exact hacc c hold
      · rcases List.mem_singleton.mp hnew with rfl
        rfl

theorem collectMasterCats_shape :
    ∀ (dirs : List ProjectDir) (acc res : List MasterCategory),
      collectMasterCats dirs acc = Except.ok res →
      (∀ c ∈ acc, c.id = c.project ++ ":" ++ c.originalId) →
      ∀ c ∈ res, c.id = c.project ++ ":" ++ c.originalId := by
  intro dirs
  induction dirs with
  | nil =>
    intro acc res h hacc
    rw [collectMasterCats] at h
    rcases Except.ok.inj h with rfl
    exact hacc
  | cons d ds ih =>
    intro acc res h hacc
    cases hcj : d.categoriesJson with
    | none =>
      rw [collectMasterCats, hcj] at h
      exact ih acc res h hacc
    | some o =>
      cases o with
      | none => rw [collectMasterCats, hcj] at h; cases h
      | some data =>
        rw [collectMasterCats, hcj] at h
        exact ih _ res h (addCats_shape d.dirName data.categories acc hacc)

theorem collectMasterCats_error_of_bad :
    ∀ (dirs : List ProjectDir) (acc : List MasterCategory),
      (∃ d ∈ dirs, d.categoriesJson = some none) →
      collectMasterCats dirs acc = Except.error BuildErr.masterCatParse := by
  intro dirs
  induction dirs with
  | nil => rintro acc ⟨d, hd, _⟩; cases hd
  | cons d ds ih =>
    rintro acc ⟨d2, hd2, hbad⟩
    rcases List.mem_cons.mp hd2 with rfl | hmem
    · rw [collectMasterCats, hbad]
    · cases hcj : d.categoriesJson with
      | none => rw [collectMasterCats, hcj]; exact ih acc ⟨d2, hmem, hbad⟩
      | some o =>
        cases o with
        | none => rw [collectMasterCats, hcj]
        | some data => rw [collectMasterCats, hcj]; exact ih _ ⟨d2, hmem, hbad⟩

theorem collectMasterCats_proj_irrel (d : ProjectDir)
    (pj1 pj2 : Option (Option ProjectConfig)) :
    ∀ (d1 d2 : List ProjectDir) (acc : List MasterCategory),
      collectMasterCats (d1 ++ { d with projectJson := pj1 } :: d2) acc =
      collectMasterCats (d1 ++ { d with projectJson := pj2 } :: d2) acc := by
  intro d1
  induction d1 with
  | nil => intro d2 acc; rfl
  | cons e d1 ih =>
    intro d2 acc
    rw [List.cons_append, List.cons_append]
    cases hcj : e.categoriesJson with
    | none => rw [collectMasterCats, hcj, collectMasterCats, hcj]; exact ih d2 acc
    | some o =>
      cases o with
      | none => rw [collectMasterCats, hcj, collectMasterCats, hcj]
      | some data => rw [collectMasterCats, hcj, collectMasterCats, hcj]; exact ih d2 _

theorem buildIndexes_ext (apps : List App) (env1 env2 : Env)
    (h1 : env1.distExists = env2.distExists) (h2 : env1.mkdirFails = env2.mkdirFails)
    (h3 : env1.writeFails = env2.writeFails) (h4 : env1.now = env2.now)
    (h5 : List.filterMap (projectStep env1 apps) env1.dirs
        = List.filterMap (projectStep env2 apps) env2.dirs)
    (h6 : collectMasterCats env1.dirs [] = collectMasterCats env2.dirs []) :
    buildIndexes env1 apps = buildIndexes env2 apps := by
  unfold buildIndexes
  rw [h1, h2, h3, h4, h5, h6]

/-- C1 (amended): in every project index produced by buildProjectIndex, an
app whose (namespaced) category corresponds to a category id that is defined
in the project's category-definition file occurs as the id of some entry of
the output's categories list. The unconditional claim — also when the app's
original category id has no definition in that file — is false; see the
counterexample. -/
theorem c1_app_category_in_categories (pid : String) (cfg : ProjectConfig)
    (apps : List App) (catsData : CategoriesData) (now : String) (idx : ProjectIndex)
    (h : buildProjectIndex pid cfg apps (some (some catsData)) now = Except.ok (some idx))
    (a : App) (_ha : a ∈ idx.apps)
    (hdef : ∃ cat ∈ catsData.categories, a.category = pid ++ ":" ++ cat.id) :
    ∃ c ∈ idx.categories, c.id = a.category := by
  rcases buildProjectIndex_ok h with ⟨d, hd, _, _, hcats⟩
  rcases Option.some.inj (Option.some.inj hd) with rfl
  rcases hdef with ⟨cat, hcat, heq⟩
  refine ⟨{ id := pid ++ ":" ++ cat.id, originalId := cat.id, name := cat.name,
            count := countApps (filteredApps cfg apps) cat.id, extra := cat.extra }, ?_, heq.symm⟩
  rw [hcats]
  exact List.mem_map_of_mem _ hcat

/-- C1 witness: a concrete build in which the app zeta has the defined
category client; its namespaced category alpha:client names an entry of the
output's categories list. -/
theorem c1_witness :
    ∃ c ∈ (okIndex (buildProjectIndex "alpha" cfgPlain [appZeta] (some (some catsAll)) "T")).categories,
      c.id = ({ appZeta with category := "alpha:client" } : App).category :=
  c1_app_category_in_categories "alpha" cfgPlain [appZeta] catsAll "T" _ rfl
    { appZeta with category := "alpha:client" }
    (by exact List.mem_singleton_self _)
    ⟨catClient, List.mem_cons_self _ _, rfl⟩

/-- C1 counterexample: one app with category undefinedcat and an empty
category-definition file. The build succeeds and the output contains the app
with namespaced category alpha:undefinedcat, but no entry of the output's
categories list has that id — the claim's universally quantified invariant
fails at this input. -/
theorem c1_counterexample :
    buildProjectIndex "alpha" cfgPlain [appX] (some (some { categories := [] })) "T"
        = Except.ok (some (okIndex (buildProjectIndex "alpha" cfgPlain [appX]
            (some (some { categories := [] })) "T"))) ∧
    ({ appX with category := "alpha:undefinedcat" } : App)
        ∈ (okIndex (buildProjectIndex "alpha" cfgPlain [appX]
            (some (some { categories := [] })) "T")).apps ∧
    (okIndex (buildProjectIndex "alpha" cfgPlain [appX]
        (some (some { categories := [] })) "T")).categories = [] :=
  ⟨rfl, by exact List.mem_singleton_self _, rfl⟩

/-- C2: whenever the structurally parsed hostname of the URL is not exactly
github.com — in particular for URLs that only contain github.com as a
substring — fetchGitHubMetadata returns null whatever the network would
answer, and the loader leaves an app whose links.github is that URL
completely unchanged: no github field is added. -/
theorem c2_untrusted_host_rejected (oracle : String → Option ApiRepo) (url : String)
    (h : parseURLHostname url ≠ some "github.com") :
    fetchGitHubMetadata oracle url = none ∧
      ∀ app : RawObj, linksGithub app = some (JValue.str url) →
        loadAppEntry oracle app = app := by
  have hf : fetchGitHubMetadata oracle url = none := by
    unfold fetchGitHubMetadata
    by_cases he : url = ""
    · simp [he]
    · rw [if_neg (by simpa using he)]
      cases hp : parseURLHostname url with
      | none => rfl
      | some host =>
        have hh : host ≠ "github.com" := fun hh => h (by rw [hp, hh])
        simp [hh]
  refine ⟨hf, fun app hl => ?_⟩
  have hg : githubMetadataOf oracle app = none := by
    unfold githubMetadataOf
    rw [hl]
    show (if truthy (JValue.str url) = true then
        fetchGitHubMetadata oracle (jsToString (JValue.str url)) else none) = none
    by_cases he : url = ""
    · subst he; rfl
    · have ht : truthy (JValue.str url) = true := by simp [truthy, he]
      rw [if_pos ht]
      exact hf
  unfold loadAppEntry
  rw [hg]

/-- C2 witness: the spec's scenario URL, whose parsed hostname is evil.com,
against an oracle that would answer every request: the fetch still returns
null and the loader leaves the app record unchanged. -/
theorem c2_witness :
    fetchGitHubMetadata oracleSome urlEvil = none ∧
    loadAppEntry oracleSome appEvil = appEvil :=
  ⟨(c2_untrusted_host_rejected oracleSome urlEvil (by decide)).1,
   (c2_untrusted_host_rejected oracleSome urlEvil (by decide)).2 appEvil rfl⟩

/-- C3: contrary to the claim, no failure class produces a non-zero
completion status, and project-artifact write failures are not fatal. At the
concrete inputs: a failing mkdir of dist still yields exit status 0 (the
rejection of buildIndexes is handled by the final catch); a failing write of
the master index rejects buildIndexes but the handled process again exits 0;
and a failing write of a project index file is caught inside the per-project
loop, the run succeeds end-to-end with that artifact silently missing. -/
theorem c3_exit_status_behavior :
    mainExitCode envMkdirFail [] = 0 ∧
    buildIndexes envMasterWriteFail appsW = Except.error BuildErr.masterWriteFailed ∧
    mainExitCode envMasterWriteFail appsW = 0 ∧
    (buildIndexes envProjWriteFail appsW).isOk = true ∧
    (okOutput (buildIndexes envProjWriteFail appsW)).projectWrites = [] :=
  ⟨rfl, rfl, rfl, rfl, rfl⟩

/-- C4 (amended): a malformed app fragment is logged and skipped with every
other file still processed, and a malformed project.json behaves exactly as
if that file were absent, affecting nothing else; but a malformed
category-definition file, while only skipping its own project in the
per-project phase, aborts the master collection phase, so the master index
is not produced. (The claim's assertion that the master index survives a
malformed categories file is false; see the counterexample.) -/
theorem c4_malformed_handling :
    (∀ (oracle : String → Option ApiRepo) (fs1 fs2 : List (Option RawObj)),
        loadAllApps oracle (fs1 ++ none :: fs2) = loadAllApps oracle (fs1 ++ fs2)) ∧
    (∀ (env : Env) (apps : List App) (d1 d2 : List ProjectDir) (d : ProjectDir),
        buildIndexes { env with dirs := d1 ++ { d with projectJson := some none } :: d2 } apps
          = buildIndexes { env with dirs := d1 ++ { d with projectJson := none } :: d2 } apps) ∧
    (∀ (env : Env) (apps : List App),
        (!env.distExists && env.mkdirFails) = false →
        (∃ d ∈ env.dirs, d.categoriesJson = some none) →
        buildIndexes env apps = Except.error BuildErr.masterCatParse) := by
  refine ⟨?_, ?_, ?_⟩
  · intro oracle fs1 fs2
    unfold loadAllApps
    rw [List.filterMap_append, List.filterMap_append, List.filterMap_cons]
    rfl
  · intro env apps d1 d2 d
    apply buildIndexes_ext apps
    · rfl
    · rfl
    · rfl
    · rfl
    · have hf : projectStep { env with dirs := d1 ++ { d with projectJson := some none } :: d2 } apps
          = projectStep { env with dirs := d1 ++ { d with projectJson := none } :: d2 } apps := rfl
      show List.filterMap _ (d1 ++ { d with projectJson := some none } :: d2)
          = List.filterMap _ (d1 ++ { d with projectJson := none } :: d2)
      rw [hf, List.filterMap_append, List.filterMap_append, List.filterMap_cons, List.filterMap_cons]
      rfl
    · exact collectMasterCats_proj_irrel d (some none) none d1 d2 []
  · intro env apps hm hbad
    unfold buildIndexes
    rw [hm, collectMasterCats_error_of_bad env.dirs [] hbad]
    rfl

/-- C4 witness: a skipped malformed app file between two good ones, a
malformed project.json equivalent to an absent one, and a malformed
categories file aborting the master phase, each at concrete inputs. -/
theorem c4_witness :
    loadAllApps oracleNone ([fileGood] ++ none :: [fileGood])
        = loadAllApps oracleNone ([fileGood] ++ [fileGood]) ∧
    buildIndexes { envGood with dirs := [] ++ { dirGood with projectJson := some none } :: [] } appsW
        = buildIndexes { envGood with dirs := [] ++ { dirGood with projectJson := none } :: [] } appsW ∧
    buildIndexes envBadCats appsW = Except.error BuildErr.masterCatParse :=
  ⟨c4_malformed_handling.1 oracleNone [fileGood] [fileGood],
   c4_malformed_handling.2.1 envGood appsW [] [] dirGood,
   c4_malformed_handling.2.2 envBadCats appsW rfl
     ⟨dirBadCats, List.mem_cons_of_mem dirGood (List.mem_singleton_self dirBadCats), rfl⟩⟩

/-- C4 counterexample: a valid project alpha together with a project beta
whose categories.json is malformed. The run aborts during the master
collection phase, so the master index is not produced — contradicting the
claim that only the single malformed file is skipped and the master index is
still built. -/
theorem c4_counterexample :
    (buildIndexes envBadCats appsW).isOk = false := rfl

/-- C5: every output apps sequence — of any project index produced by
buildProjectIndex and of the master index of any successful buildIndexes run
— satisfies, for all adjacent pairs, featured decreasing (true before false)
and, on equal featured flags, case-insensitive lexicographic order of name. -/
theorem c5_outputs_sorted :
    (∀ (pid : String) (cfg : ProjectConfig) (apps : List App)
        (catsFile : Option (Option CategoriesData)) (now : String) (idx : ProjectIndex),
        buildProjectIndex pid cfg apps catsFile now = Except.ok (some idx) →
        sortedOutput idx.apps) ∧
    (∀ (env : Env) (apps : List App) (out : BuildOutput),
        buildIndexes env apps = Except.ok out → sortedOutput out.master.apps) := by
  constructor
  · intro pid cfg apps catsFile now idx h
    rcases buildProjectIndex_ok h with ⟨d, _, _, happs, _⟩
    rw [happs]
    exact sortApps_sorted _
  · intro env apps out h
    rcases buildIndexes_ok h with ⟨rawCats, _, _, hm⟩
    rw [hm]
    exact sortApps_sorted _

/-- C5 witness: the concrete project build and master build over the sample
apps both yield sorted output sequences. -/
theorem c5_witness :
    sortedOutput (okIndex (buildProjectIndex "alpha" cfgPlain appsW (some (some catsAll)) "T")).apps ∧
    sortedOutput (okOutput (buildIndexes envGood appsW)).master.apps :=
  ⟨c5_outputs_sorted.1 "alpha" cfgPlain appsW (some (some catsAll)) "T" _ rfl,
   c5_outputs_sorted.2 envGood appsW _ rfl⟩

theorem countApps_eq_filter_length (apps : List App) (s : String) :
    countApps apps s = (apps.filter (fun a => a.category = s)).length := by
  unfold countApps
  congr 1

/-- C6: in the master index of every successful buildIndexes run, each
category's count equals the number of apps of the full, unfiltered app set
whose original (non-namespaced) category field equals that category's
originalId; the count is computed from the full set handed to buildIndexes,
never from a project-filtered subset. -/
theorem c6_master_counts (env : Env) (apps : List App) (out : BuildOutput)
    (h : buildIndexes env apps = Except.ok out) :
    ∀ c ∈ out.master.categories,
      c.count = (apps.filter (fun a => a.category = c.originalId)).length := by
  rcases buildIndexes_ok h with ⟨rawCats, _, _, hm⟩
  intro c hc
  rw [hm] at hc
  rcases List.mem_map.mp hc with ⟨r, _, he⟩
  rw [← he]
  exact countApps_eq_filter_length apps r.originalId

/-- C6 witness: in the concrete master build over the sample apps, the
client category counts exactly the one client app of the full set. -/
theorem c6_witness :
    masterCatClientW.count
      = (appsW.filter (fun a => a.category = masterCatClientW.originalId)).length :=
  c6_master_counts envGood appsW _ rfl masterCatClientW
    (by exact List.mem_cons_self _ _)

theorem applyIncludeOnly_sublist (cfg : ProjectConfig) (l : List App) :
    (applyIncludeOnly cfg l).Sublist l := by
  cases h : cfg.include_only with
  | none => simp only [applyIncludeOnly, h]; exact List.Sublist.refl l
  | some xs =>
    simp only [applyIncludeOnly, h]
    by_cases hl : xs.length > 0
    · rw [if_pos hl]; exact List.filter_sublist l
    · rw [if_neg hl]

theorem applyExcludeApps_sublist (cfg : ProjectConfig) (l : List App) :
    (applyExcludeApps cfg l).Sublist l := by
  cases h : cfg.exclude_apps with
  | none => simp only [applyExcludeApps, h]; exact List.Sublist.refl l
  | some xs =>
    simp only [applyExcludeApps, h]
    by_cases hl : xs.length > 0
    · rw [if_pos hl]; exact List.filter_sublist l
    · rw [if_neg hl]

theorem applyFeaturedCategories_sublist (cfg : ProjectConfig) (l : List App) :
    (applyFeaturedCategories cfg l).Sublist l := by
  cases h : cfg.featured_categories with
  | none => simp only [applyFeaturedCategories, h]; exact List.Sublist.refl l
  | some xs =>
    simp only [applyFeaturedCategories, h]
    by_cases hl : xs.length > 0
    · rw [if_pos hl]; exact List.filter_sublist l
    · rw [if_neg hl]

/-- C7: buildProjectIndex applies its three filters in the fixed order
include_only, exclude_apps, featured_categories, each on the previous step's
output; each step yields a sublist of its input (hence the final set is a
sublist — never a superset — of the unfiltered list and sizes never grow),
and each step is the identity when its filter list is absent or empty. -/
theorem c7_filter_pipeline (cfg : ProjectConfig) (apps : List App) :
    filteredApps cfg apps
        = applyFeaturedCategories cfg (applyExcludeApps cfg (applyIncludeOnly cfg apps)) ∧
    (applyIncludeOnly cfg apps).Sublist apps ∧
    (applyExcludeApps cfg (applyIncludeOnly cfg apps)).Sublist (applyIncludeOnly cfg apps) ∧
    (filteredApps cfg apps).Sublist (applyExcludeApps cfg (applyIncludeOnly cfg apps)) ∧
    (filteredApps cfg apps).Sublist apps ∧
    (applyIncludeOnly cfg apps).length ≤ apps.length ∧
    (applyExcludeApps cfg (applyIncludeOnly cfg apps)).length ≤ (applyIncludeOnly cfg apps).length ∧
    (filteredApps cfg apps).length ≤ (applyExcludeApps cfg (applyIncludeOnly cfg apps)).length ∧
    (cfg.include_only = none ∨ cfg.include_only = some [] →
      applyIncludeOnly cfg apps = apps) ∧
    (cfg.exclude_apps = none ∨ cfg.exclude_apps = some [] →
      ∀ l, applyExcludeApps cfg l = l) ∧
    (cfg.featured_categories = none ∨ cfg.featured_categories = some [] →
      ∀ l, applyFeaturedCategories cfg l = l) := by
  have h1 := applyIncludeOnly_sublist cfg apps
  have h2 := applyExcludeApps_sublist cfg (applyIncludeOnly cfg apps)
  have h3 := applyFeaturedCategories_sublist cfg (applyExcludeApps cfg (applyIncludeOnly cfg apps))
  refine ⟨rfl, h1, h2, h3, (h3.trans h2).trans h1,
    h1.length_le, h2.length_le, h3.length_le, ?_, ?_, ?_⟩
  · rintro (h | h) <;> simp [applyIncludeOnly, h]
  · rintro (h | h) <;> intro l <;> simp [applyExcludeApps, h]
  · rintro (h | h) <;> intro l <;> simp [applyFeaturedCategories, h]

/-- C7 witness: with the filterless sample configuration every step is the
identity, and the pipeline output over the sample apps is no longer than its
input. -/
theorem c7_witness :
    applyIncludeOnly cfgPlain appsW = appsW ∧
    applyExcludeApps cfgPlain appsW = appsW ∧
    applyFeaturedCategories cfgPlain appsW = appsW ∧
    (filteredApps cfgPlain appsW).length ≤ appsW.length := by
  have h := c7_filter_pipeline cfgPlain appsW
  refine ⟨h.2.2.2.2.2.2.2.2.1 (Or.inl rfl),
    h.2.2.2.2.2.2.2.2.2.1 (Or.inl rfl) appsW,
    h.2.2.2.2.2.2.2.2.2.2 (Or.inl rfl) appsW, ?_⟩
  calc (filteredApps cfgPlain appsW).length
      ≤ (applyExcludeApps cfgPlain (applyIncludeOnly cfgPlain appsW)).length := h.2.2.2.2.2.2.2.1
    _ ≤ (applyIncludeOnly cfgPlain appsW).length := h.2.2.2.2.2.2.1
    _ ≤ appsW.length := h.2.2.2.2.2.1

/-- C8: every namespaced category produced by either builder has id equal to
the project id, a colon, and its originalId, so dropping the
"{projectId}:" prefix from id recovers originalId exactly — for the project
builder the prefix is its projectId argument, for the master builder the
owning project recorded in the category. -/
theorem c8_namespacing_roundtrip :
    (∀ (pid : String) (cfg : ProjectConfig) (apps : List App)
        (catsFile : Option (Option CategoriesData)) (now : String) (idx : ProjectIndex),
        buildProjectIndex pid cfg apps catsFile now = Except.ok (some idx) →
        ∀ c ∈ idx.categories,
          c.id = pid ++ ":" ++ c.originalId ∧
          c.id.drop (pid ++ ":").length = c.originalId) ∧
    (∀ (env : Env) (apps : List App) (out : BuildOutput),
        buildIndexes env apps = Except.ok out →
        ∀ c ∈ out.master.categories,
          c.id = c.project ++ ":" ++ c.originalId ∧
          c.id.drop (c.project ++ ":").length = c.originalId) := by
  constructor
  · intro pid cfg apps catsFile now idx h c hc
    rcases buildProjectIndex_ok h with ⟨d, _, _, _, hcats⟩
    rw [hcats] at hc
    rcases List.mem_map.mp hc with ⟨cat, _, he⟩
    have hid : c.id = pid ++ ":" ++ c.originalId := by rw [← he]
    refine ⟨hid, ?_⟩
    rw [hid]
    exact string_drop_append (pid ++ ":") c.originalId
  · intro env apps out h c hc
    rcases buildIndexes_ok h with ⟨rawCats, hcol, _, hm⟩
    rw [hm] at hc
    rcases List.mem_map.mp hc with ⟨r, hr, he⟩
    have hshape := collectMasterCats_shape env.dirs [] rawCats hcol
      (by intro c2 hc2; exact absurd hc2 (List.not_mem_nil c2)) r hr
    have hid : c.id = c.project ++ ":" ++ c.originalId := by rw [← he]; exact hshape
    refine ⟨hid, ?_⟩
    rw [hid]
    exact string_drop_append (c.project ++ ":") c.originalId

/-- C8 witness: the concrete client category of both the sample project
index and the sample master index satisfies the round trip. -/
theorem c8_witness :
    (nsCatClientW.id = "alpha" ++ ":" ++ nsCatClientW.originalId ∧
      nsCatClientW.id.drop ("alpha" ++ ":").length = nsCatClientW.originalId) ∧
    (masterCatClientW.id = masterCatClientW.project ++ ":" ++ masterCatClientW.originalId ∧
      masterCatClientW.id.drop (masterCatClientW.project ++ ":").length
        = masterCatClientW.originalId) :=
  ⟨c8_namespacing_roundtrip.1 "alpha" cfgPlain appsW (some (some catsAll)) "T" _ rfl
      nsCatClientW (by exact List.mem_cons_self _ _),
   c8_namespacing_roundtrip.2 envGood appsW _ rfl
      masterCatClientW (by exact List.mem_cons_self _ _)⟩

/-- C9 (amended): for every successfully parsed record that does not itself
already contain a github field, the loader preserves every input field
verbatim — the output is the input with at most one github field appended —
and the output has a github key precisely when enrichment returned a
non-null result (never a null or empty placeholder). Unrestricted the claim
fails: a record that already carries a github field keeps it even when
enrichment returns null; see the counterexample. -/
theorem c9_passthrough (oracle : String → Option ApiRepo) (app : RawObj)
    (h : hasField app "github" = false) :
    loadAppEntry oracle app
        = app ++ ((githubMetadataOf oracle app).map
            (fun m => ("github", metaToJValue m))).toList ∧
    hasField (loadAppEntry oracle app) "github" = (githubMetadataOf oracle app).isSome := by
  have h' : app.any (fun p => p.1 == "github") = false := h
  cases hm : githubMetadataOf oracle app with
  | none =>
    constructor
    · unfold loadAppEntry
      rw [hm]
      simp
    · unfold loadAppEntry
      rw [hm]
      simp [h]
  | some m =>
    constructor
    · unfold loadAppEntry setField
      rw [hm]
      simp [h']
    · unfold loadAppEntry setField hasField
      rw [hm]
      simp [List.any_append, h']

/-- C9 witness: a concrete record with a GitHub link and no github field, on
a network that answers: the entry is the record plus the appended github
field, and the key is present exactly because enrichment succeeded. -/
theorem c9_witness :
    loadAppEntry oracleSome appLinked
        = appLinked ++ ((githubMetadataOf oracleSome appLinked).map
            (fun m => ("github", metaToJValue m))).toList ∧
    hasField (loadAppEntry oracleSome appLinked) "github"
        = (githubMetadataOf oracleSome appLinked).isSome :=
  c9_passthrough oracleSome appLinked rfl

/-- C9 counterexample: a parsed record that already carries a github field
and declares no links.github. Enrichment returns null, yet the loader's
output contains a github key — the claimed equivalence between the presence
of the key and a non-null enrichment result fails at this input. -/
theorem c9_counterexample :
    githubMetadataOf oracleNone appStale = none ∧
    hasField (loadAppEntry oracleNone appStale) "github" = true :=
  ⟨rfl, rfl⟩

/-- C10: buildIndexes derives the namespacing prefix from the project's
directory name and passes it to buildProjectIndex, while the output's
project.id is taken from the configuration file's id. In every produced
project index, each category id (and each app's rewritten category) is
prefixed by the projectId argument, the output's project.id equals the
config's id, and whenever the config's id differs from the directory-derived
projectId, no category id equals project.id followed by a colon and its
originalId — the prefixes do not match project.id. -/
theorem c10_prefix_from_directory :
    (∀ (pid : String) (cfg : ProjectConfig) (apps : List App)
        (catsFile : Option (Option CategoriesData)) (now : String) (idx : ProjectIndex),
        buildProjectIndex pid cfg apps catsFile now = Except.ok (some idx) →
        idx.project.id = cfg.id ∧
        (∀ c ∈ idx.categories, c.id = pid ++ ":" ++ c.originalId) ∧
        (∀ a ∈ idx.apps, ∃ orig, a.category = pid ++ ":" ++ orig) ∧
        (cfg.id ≠ pid →
          ∀ c ∈ idx.categories, c.id ≠ idx.project.id ++ ":" ++ c.originalId)) ∧
    (∀ (env : Env) (apps : List App) (out : BuildOutput),
        buildIndexes env apps = Except.ok out →
        ∀ w ∈ out.projectWrites, ∃ d ∈ env.dirs, ∃ cfg,
          d.projectJson = some (some cfg) ∧ w.dirName = d.dirName ∧
          buildProjectIndex d.dirName cfg apps d.categoriesJson env.now
            = Except.ok (some w.index)) := by
  constructor
  · intro pid cfg apps catsFile now idx h
    rcases buildProjectIndex_ok h with ⟨d, _, hproj, happs, hcats⟩
    have hpid : idx.project.id = cfg.id := by rw [hproj]
    have hcid : ∀ c ∈ idx.categories, c.id = pid ++ ":" ++ c.originalId := by
      intro c hc
      rw [hcats] at hc
      rcases List.mem_map.mp hc with ⟨cat, _, he⟩
      rw [← he]
    refine ⟨hpid, hcid, ?_, ?_⟩
    · intro a ha
      rw [happs] at ha
      rcases List.mem_map.mp (mem_sortApps.mp ha) with ⟨a0, _, he⟩
      exact ⟨a0.category, by rw [← he]⟩
    · intro hne c hc heq
      rw [hcid c hc, hpid] at heq
      exact hne (ns_inj heq).symm
  · intro env apps out h w hw
    rcases buildIndexes_ok h with ⟨rawCats, _, hpw, _⟩
    rw [hpw] at hw
    rcases List.mem_filterMap.mp hw with ⟨d, hd, hstep⟩
    refine ⟨d, hd, ?_⟩
    unfold projectStep at hstep
    cases hpj : d.projectJson with
    | none => simp only [hpj] at hstep; cases hstep
    | some o =>
      cases o with
      | none => simp only [hpj] at hstep; cases hstep
      | some cfg =>
        simp only [hpj] at hstep
        cases hb : buildProjectIndex d.dirName cfg apps d.categoriesJson env.now with
        | error e => simp only [hb] at hstep; cases hstep
        | ok oidx =>
          cases oidx with
          | none => simp only [hb] at hstep; cases hstep
          | some idx =>
            simp only [hb] at hstep
            by_cases hwf : env.writeFails.contains ("dist/" ++ d.dirName ++ ".json") = true
            · rw [if_pos hwf] at hstep; cases hstep
            · rw [if_neg hwf] at hstep
              rcases Option.some.inj hstep with rfl
              exact ⟨cfg, rfl, rfl, hb⟩

/-- C10 witness: the concrete directory alphadir whose config declares id
renamed: the produced index is written for alphadir, its project.id is
renamed, its categories are prefixed alphadir:, and the prefix does not
match project.id. -/
theorem c10_witness :
    (okIndex (buildProjectIndex "alphadir" cfgMismatch appsW (some (some catsAll)) "T")).project.id
        = cfgMismatch.id ∧
    ({ id := "alphadir:client", originalId := "client", name := "Clients", count := 1 }
        : NamespacedCategory).id
      ≠ (okIndex (buildProjectIndex "alphadir" cfgMismatch appsW (some (some catsAll)) "T")).project.id
        ++ ":" ++ "client" :=
  ⟨(c10_prefix_from_directory.1 "alphadir" cfgMismatch appsW (some (some catsAll)) "T" _ rfl).1,
   (c10_prefix_from_directory.1 "alphadir" cfgMismatch appsW (some (some catsAll)) "T" _ rfl).2.2.2
     (by decide)
     { id := "alphadir:client", originalId := "client", name := "Clients", count := 1 }
     (by exact List.mem_cons_self _ _)⟩
